import Mathlib

/-!
Verification of the JOSAA admission-probability engine.

The source program (app/utils.py and the shortlist pipeline wired up in
app/main.py) estimates admission probabilities from historical cutoff data.
Numbers are modelled as rationals; the exponential of the logistic model is
an abstract parameter `ex : ℚ → Option ℚ` (`none` models an overflow error
raised by the exponential, as the Python `math.exp` does for large inputs).
Fallible paths of the Python `try` body are modelled with `Option`: the
division `(opening_rank - rank) / opening_rank` raises `ZeroDivisionError`
when `opening_rank = 0`, and any raised error is caught by the handler,
which returns the fallback value `0.0`.
-/

namespace JOSAA

/-- Banker rounding of a rational to the nearest integer, ties to even,
modelling Python `round` on the exact value. -/
def roundHalfEven (q : ℚ) : ℤ :=
  if q - ⌊q⌋ < 1/2 then ⌊q⌋
  else if 1/2 < q - ⌊q⌋ then ⌊q⌋ + 1
  else if ⌊q⌋ % 2 = 0 then ⌊q⌋ else ⌊q⌋ + 1

/-- Python `round(x, 2)`: round to two decimal places, ties to even. -/
def round2 (q : ℚ) : ℚ := (roundHalfEven (q * 100) : ℚ) / 100

/-- Midpoint `M = (opening_rank + closing_rank) / 2` from
`hybrid_probability_calculation` (utils.py line 68). -/
def mid (openingRank closingRank : ℚ) : ℚ := (openingRank + closingRank) / 2

/-- Spread `S = (closing_rank - opening_rank) / 10`, replaced by `1` when it
is zero (utils.py lines 69-71). -/
def spread (openingRank closingRank : ℚ) : ℚ :=
  if (closingRank - openingRank) / 10 = 0 then 1 else (closingRank - openingRank) / 10

/-- Logistic component `1 / (1 + exp((rank - M) / S)) * 100` as a function of
the already-computed exponential value `e` (utils.py line 72). -/
def logisticProb (e : ℚ) : ℚ := 1 / (1 + e) * 100

/-- Piecewise component of `hybrid_probability_calculation`
(utils.py lines 74-98), case analysis on the rank relative to the cutoff
range.  The `rank < openingRank` case divides by `openingRank`; the caller
(`hybridBody`) models the `ZeroDivisionError` path, so this pure function is
only consulted away from that failure. -/
def pieceWiseProb (rank openingRank closingRank : ℚ) : ℚ :=
  if rank < openingRank then
    if 1/2 ≤ (openingRank - rank) / openingRank then 99
    else 96 + ((openingRank - rank) / openingRank) * 6
  else if rank = openingRank then 95
  else if rank < closingRank then
    if (rank - openingRank) / (closingRank - openingRank) ≤ 0.2 then
      94 - ((rank - openingRank) / (closingRank - openingRank)) * 70
    else if (rank - openingRank) / (closingRank - openingRank) ≤ 0.5 then
      80 - ((rank - openingRank) / (closingRank - openingRank) - 0.2) / 0.3 * 20
    else if (rank - openingRank) / (closingRank - openingRank) ≤ 0.8 then
      60 - ((rank - openingRank) / (closingRank - openingRank) - 0.5) / 0.3 * 20
    else
      40 - ((rank - openingRank) / (closingRank - openingRank) - 0.8) / 0.2 * 20
  else if rank = closingRank then 15
  else if rank ≤ closingRank + 10 then 5
  else 0

/-- Blend stage of `hybrid_probability_calculation` (utils.py lines 100-106):
re-derives the rank-relative branch with its own thresholds and mixes the
logistic value `lp` with the piecewise value `pw`. -/
def finalProb (lp rank openingRank closingRank pw : ℚ) : ℚ :=
  if rank < openingRank then
    if 1/2 < (openingRank - rank) / openingRank then max lp 95
    else lp * 0.4 + pw * 0.6
  else if rank ≤ closingRank then lp * 0.7 + pw * 0.3
  else if closingRank + 100 < rank then 0 else min lp 5

/-- The `try` body of `hybrid_probability_calculation` (utils.py lines
67-108).  `none` models a raised exception: either the exponential at
`(rank - M) / S` overflowing (line 72), or the `ZeroDivisionError` from
`(opening_rank - rank) / opening_rank` when `rank < opening_rank` and
`opening_rank = 0` (line 75). -/
def hybridBody (ex : ℚ → Option ℚ) (rank openingRank closingRank : ℚ) : Option ℚ :=
  match ex ((rank - mid openingRank closingRank) / spread openingRank closingRank) with
  | none => none
  | some e =>
    if rank < openingRank ∧ openingRank = 0 then none
    else some (round2 (finalProb (logisticProb e) rank openingRank closingRank
        (pieceWiseProb rank openingRank closingRank)))

/-- `hybrid_probability_calculation` (utils.py lines 66-111): the `try` body,
with any raised exception caught and the fallback `0.0` returned. -/
def hybrid_probability_calculation (ex : ℚ → Option ℚ)
    (rank openingRank closingRank : ℚ) : ℚ :=
  (hybridBody ex rank openingRank closingRank).getD 0

/-- A faithful model of the exponential returns only nonnegative values
(IEEE `exp` underflows to `0.0` and is otherwise positive; overflow is the
`none` case). -/
def ExpOk (ex : ℚ → Option ℚ) : Prop := ∀ x v, ex x = some v → 0 ≤ v

/-- Concrete exponential model used for witnesses: constantly `1`, the exact
value of the real exponential at `0`. -/
def expOne : ℚ → Option ℚ := fun _ => some 1

/-- `get_probability_interpretation` (utils.py lines 113-125). -/
def get_probability_interpretation (probability : ℚ) : String :=
  if 95 ≤ probability then "Very High Chance"
  else if 80 ≤ probability then "High Chance"
  else if 60 ≤ probability then "Moderate Chance"
  else if 40 ≤ probability then "Low Chance"
  else if 0 < probability then "Very Low Chance"
  else "No Chance"

theorem expOne_ok : ExpOk expOne := by
  intro x v h
  simp only [expOne, Option.some.injEq] at h
  rw [← h]
  norm_num

theorem roundHalfEven_intCast (n : ℤ) : roundHalfEven (n : ℚ) = n := by
  unfold roundHalfEven
  rw [Int.floor_intCast]
  norm_num

theorem round2_eq_of_mul_eq_intCast (n : ℤ) (q : ℚ) (h : q * 100 = (n : ℚ)) :
    round2 q = (n : ℚ) / 100 := by
  unfold round2
  rw [h, roundHalfEven_intCast]

theorem le_roundHalfEven (n : ℤ) (q : ℚ) (h : (n : ℚ) ≤ q) : n ≤ roundHalfEven q := by
  have hn : n ≤ ⌊q⌋ := Int.le_floor.mpr h
  unfold roundHalfEven
  split_ifs <;> omega

theorem roundHalfEven_le (n : ℤ) (q : ℚ) (h : q ≤ (n : ℚ)) : roundHalfEven q ≤ n := by
  have hf : (⌊q⌋ : ℚ) ≤ q := Int.floor_le q
  have hfn : ⌊q⌋ ≤ n := by exact_mod_cast hf.trans h
  unfold roundHalfEven
  split_ifs with h1 h2 h3
  · exact hfn
  · have h4 : (⌊q⌋ : ℚ) + 1/2 < q := by linarith
    have h5 : (⌊q⌋ : ℚ) < (n : ℚ) := by linarith
    have h6 : ⌊q⌋ < n := by exact_mod_cast h5
    omega
  · exact hfn
  · have h1a : (1 : ℚ)/2 ≤ q - ⌊q⌋ := not_lt.mp h1
    have h5 : (⌊q⌋ : ℚ) < (n : ℚ) := by linarith
    have h6 : ⌊q⌋ < n := by exact_mod_cast h5
    omega

theorem intCast_le_round2 (n : ℤ) (q : ℚ) (h : (n : ℚ) ≤ q) : (n : ℚ) ≤ round2 q := by
  have h1 : ((n * 100 : ℤ) : ℚ) ≤ q * 100 := by push_cast; linarith
  have h2 : n * 100 ≤ roundHalfEven (q * 100) := le_roundHalfEven _ _ h1
  unfold round2
  rw [le_div_iff₀ (by norm_num : (0:ℚ) < 100)]
  calc (n : ℚ) * 100 = ((n * 100 : ℤ) : ℚ) := by push_cast; ring
    _ ≤ (roundHalfEven (q * 100) : ℚ) := by exact_mod_cast h2

theorem round2_le_intCast (n : ℤ) (q : ℚ) (h : q ≤ (n : ℚ)) : round2 q ≤ (n : ℚ) := by
  have h1 : q * 100 ≤ ((n * 100 : ℤ) : ℚ) := by push_cast; linarith
  have h2 : roundHalfEven (q * 100) ≤ n * 100 := roundHalfEven_le _ _ h1
  unfold round2
  rw [div_le_iff₀ (by norm_num : (0:ℚ) < 100)]
  calc (roundHalfEven (q * 100) : ℚ) ≤ ((n * 100 : ℤ) : ℚ) := by exact_mod_cast h2
    _ = (n : ℚ) * 100 := by push_cast; ring

theorem round2_zero : round2 0 = 0 := by
  have := round2_eq_of_mul_eq_intCast 0 0 (by norm_num)
  simpa using this

theorem logisticProb_pos (e : ℚ) (he : 0 ≤ e) : 0 < logisticProb e := by
  unfold logisticProb
  have h1 : (0:ℚ) < 1 + e := by linarith
  positivity

theorem logisticProb_le_100 (e : ℚ) (he : 0 ≤ e) : logisticProb e ≤ 100 := by
  unfold logisticProb
  have h1 : (0:ℚ) < 1 + e := by linarith
  have h2 : 1 / (1 + e) ≤ 1 := by
    rw [div_le_one h1]; linarith
  nlinarith

theorem hybridBody_eq_some (ex : ℚ → Option ℚ) (r O C e : ℚ)
    (hx : ex ((r - mid O C) / spread O C) = some e) (hg : ¬(r < O ∧ O = 0)) :
    hybridBody ex r O C =
      some (round2 (finalProb (logisticProb e) r O C (pieceWiseProb r O C))) := by
  unfold hybridBody
  rw [hx]
  dsimp only
  rw [if_neg hg]

theorem hybrid_eq_of_some (ex : ℚ → Option ℚ) (r O C e : ℚ)
    (hx : ex ((r - mid O C) / spread O C) = some e) (hg : ¬(r < O ∧ O = 0)) :
    hybrid_probability_calculation ex r O C =
      round2 (finalProb (logisticProb e) r O C (pieceWiseProb r O C)) := by
  unfold hybrid_probability_calculation
  rw [hybridBody_eq_some ex r O C e hx hg]
  rfl

theorem hybrid_eq_zero_of_none (ex : ℚ → Option ℚ) (r O C : ℚ)
    (hx : hybridBody ex r O C = none) :
    hybrid_probability_calculation ex r O C = 0 := by
  unfold hybrid_probability_calculation
  rw [hx]
  rfl

theorem hybridBody_none_of_ex_none (ex : ℚ → Option ℚ) (r O C : ℚ)
    (hx : ex ((r - mid O C) / spread O C) = none) :
    hybridBody ex r O C = none := by
  unfold hybridBody
  rw [hx]

theorem pieceWise_bounds_mid (r O C : ℚ) (h1 : ¬ r < O) (h2 : r ≤ C) :
    0 ≤ pieceWiseProb r O C ∧ pieceWiseProb r O C ≤ 95 := by
  unfold pieceWiseProb
  rw [if_neg h1]
  by_cases hro : r = O
  · rw [if_pos hro]; norm_num
  · rw [if_neg hro]
    by_cases hrc : r < C
    · rw [if_pos hrc]
      have hOr : O < r := lt_of_le_of_ne (not_lt.mp h1) (Ne.symm hro)
      have hw : 0 < C - O := by linarith
      have hp0 : 0 < (r - O) / (C - O) := div_pos (by linarith) hw
      have hp1 : (r - O) / (C - O) < 1 := (div_lt_one hw).mpr (by linarith)
      set position := (r - O) / (C - O) with hposdef
      split_ifs with q1 q2 q3
      · refine ⟨?_, ?_⟩ <;> nlinarith
      · have e1 : 80 - (position - 0.2) / 0.3 * 20 = 80 - (position - 0.2) * (200/3) := by
          ring
        rw [e1]
        have q1a : (0.2 : ℚ) < position := not_le.mp q1
        refine ⟨?_, ?_⟩ <;> nlinarith
      · have e1 : 60 - (position - 0.5) / 0.3 * 20 = 60 - (position - 0.5) * (200/3) := by
          ring
        rw [e1]
        have q2a : (0.5 : ℚ) < position := not_le.mp q2
        refine ⟨?_, ?_⟩ <;> nlinarith
      · have e1 : 40 - (position - 0.8) / 0.2 * 20 = 40 - (position - 0.8) * 100 := by
          ring
        rw [e1]
        have q3a : (0.8 : ℚ) < position := not_le.mp q3
        refine ⟨?_, ?_⟩ <;> nlinarith
    · rw [if_neg hrc]
      have hrC : r = C := le_antisymm h2 (not_lt.mp hrc)
      rw [if_pos hrC]
      norm_num

theorem pieceWise_bounds_better (r O C : ℚ) (hrO : r < O) (hOpos : 0 < O) :
    0 < pieceWiseProb r O C ∧ pieceWiseProb r O C ≤ 99 := by
  have himp : 0 < (O - r) / O := div_pos (by linarith) hOpos
  unfold pieceWiseProb
  rw [if_pos hrO]
  split_ifs with h1
  · norm_num
  · have h1a : (O - r) / O < 1/2 := not_le.mp h1
    refine ⟨?_, ?_⟩ <;> nlinarith

theorem final_in_range (e r O C : ℚ) (hO : 0 ≤ O) (hg : ¬(r < O ∧ O = 0)) (he : 0 ≤ e) :
    0 ≤ finalProb (logisticProb e) r O C (pieceWiseProb r O C) ∧
      finalProb (logisticProb e) r O C (pieceWiseProb r O C) ≤ 100 := by
  have hlp0 : 0 < logisticProb e := logisticProb_pos e he
  have hlp1 : logisticProb e ≤ 100 := logisticProb_le_100 e he
  by_cases hrO : r < O
  · have hOne : O ≠ 0 := fun h => hg ⟨hrO, h⟩
    have hOpos : 0 < O := lt_of_le_of_ne hO (Ne.symm hOne)
    have himp : 0 < (O - r) / O := div_pos (by linarith) hOpos
    unfold finalProb pieceWiseProb
    rw [if_pos hrO, if_pos hrO]
    split_ifs with h1 h2
    · constructor
      · exact le_trans (by norm_num) (le_max_right (logisticProb e) 95)
      · exact max_le hlp1 (by norm_num)
    · constructor <;> nlinarith
    · have h2a : (O - r) / O < 1/2 := not_le.mp h2
      constructor <;> nlinarith
  · unfold finalProb
    rw [if_neg hrO]
    by_cases hrC : r ≤ C
    · rw [if_pos hrC]
      obtain ⟨hpw0, hpw95⟩ := pieceWise_bounds_mid r O C hrO hrC
      constructor <;> nlinarith
    · rw [if_neg hrC]
      split_ifs with h1
      · norm_num
      · constructor
        · exact le_min (le_of_lt hlp0) (by norm_num)
        · exact le_trans (min_le_right _ _) (by norm_num)

theorem hybrid_in_range_core (ex : ℚ → Option ℚ) (hex : ExpOk ex) (r O C : ℚ)
    (hO : 0 ≤ O) :
    0 ≤ hybrid_probability_calculation ex r O C ∧
      hybrid_probability_calculation ex r O C ≤ 100 := by
  cases hx : ex ((r - mid O C) / spread O C) with
  | none =>
      rw [hybrid_eq_zero_of_none ex r O C (hybridBody_none_of_ex_none ex r O C hx)]
      norm_num
  | some e =>
      have he : 0 ≤ e := hex _ _ hx
      by_cases hg : r < O ∧ O = 0
      · have hb : hybridBody ex r O C = none := by
          unfold hybridBody
          rw [hx]
          dsimp only
          rw [if_pos hg]
        rw [hybrid_eq_zero_of_none ex r O C hb]
        norm_num
      · rw [hybrid_eq_of_some ex r O C e hx hg]
        obtain ⟨hf0, hf1⟩ := final_in_range e r O C hO hg he
        constructor
        · have := intCast_le_round2 0 _ hf0
          simpa using this
        · have := round2_le_intCast 100 _ (by exact_mod_cast hf1)
          exact_mod_cast this

/-- C1 (amended): for every rank and closing rank, and every nonnegative
opening rank, `hybrid_probability_calculation` returns a value in the closed
interval `[0, 100]`, for any exponential model returning nonnegative values;
negative or zero ranks are accepted without range validation.  The original
claim without the restriction on the opening rank fails: with a negative
opening rank the improvement ratio is negative and the blended value can be
pushed below zero (see the counterexample). -/
theorem hybrid_range_of_nonneg_opening (ex : ℚ → Option ℚ) (hex : ExpOk ex)
    (r O C : ℚ) (hO : 0 ≤ O) :
    0 ≤ hybrid_probability_calculation ex r O C ∧
      hybrid_probability_calculation ex r O C ≤ 100 :=
  hybrid_in_range_core ex hex r O C hO

/-- C1 witness: a concrete in-range evaluation (negative rank accepted). -/
theorem hybrid_range_of_nonneg_opening_witness :
    0 ≤ hybrid_probability_calculation expOne (-5) 4800 5200 ∧
      hybrid_probability_calculation expOne (-5) 4800 5200 ≤ 100 :=
  hybrid_range_of_nonneg_opening expOne expOne_ok (-5) 4800 5200 (by norm_num)

/-- C1 counterexample: at rank `-310`, opening rank `-10`, closing rank
`-610` the improvement ratio is `-30`, the piecewise value is `-84`, and the
result is `-30.4 < 0`.  The exponential argument is exactly `0` here, so the
model value `1` is the exact value of the real exponential. -/
theorem hybrid_range_counterexample :
    hybrid_probability_calculation expOne (-310) (-10) (-610) < 0 := by
  have h1 : hybrid_probability_calculation expOne (-310) (-10) (-610) =
      round2 (finalProb (logisticProb 1) (-310) (-10) (-610)
        (pieceWiseProb (-310) (-10) (-610))) :=
    hybrid_eq_of_some expOne (-310) (-10) (-610) 1 rfl (by norm_num)
  have h2 : finalProb (logisticProb 1) (-310) (-10) (-610)
      (pieceWiseProb (-310) (-10) (-610)) = -30.4 := by
    norm_num [finalProb, pieceWiseProb, logisticProb]
  rw [h1, h2, round2_eq_of_mul_eq_intCast (-3040) _ (by norm_num)]
  norm_num

/-- C2: the function is total; a failed exponential or the division by an
opening rank of zero (reached when `rank < opening_rank`) makes the try body
fail, and a failed body yields the fallback value `0.0`. -/
theorem hybrid_total_fallback (ex : ℚ → Option ℚ) (r O C : ℚ) :
    (hybridBody ex r O C = none → hybrid_probability_calculation ex r O C = 0) ∧
    (ex ((r - mid O C) / spread O C) = none → hybridBody ex r O C = none) ∧
    (r < O → O = 0 → hybridBody ex r O C = none) := by
  refine ⟨fun hx => hybrid_eq_zero_of_none ex r O C hx,
    fun hx => hybridBody_none_of_ex_none ex r O C hx, fun h1 h2 => ?_⟩
  cases hx : ex ((r - mid O C) / spread O C) with
  | none => exact hybridBody_none_of_ex_none ex r O C hx
  | some e =>
      unfold hybridBody
      rw [hx]
      dsimp only
      rw [if_pos ⟨h1, h2⟩]

/-- C2 witness: division by an opening rank of zero falls back to `0.0`. -/
theorem hybrid_total_fallback_witness :
    hybridBody expOne (-1) 0 5 = none ∧
      hybrid_probability_calculation expOne (-1) 0 5 = 0 := by
  have h := hybrid_total_fallback expOne (-1) 0 5
  have hb : hybridBody expOne (-1) 0 5 = none := h.2.2 (by norm_num) rfl
  exact ⟨hb, h.1 hb⟩

/-- C4 (amended): for every rank with `opening_rank ≤ rank` and
`rank > closing_rank + 100`, the function returns exactly `0.0`.  The
original claim, with no condition relating rank and opening rank, is refuted
by the counterexample: when `rank < opening_rank` the blend takes the
better-rank branch even beyond `closing_rank + 100`. -/
theorem hybrid_zero_beyond_closing (ex : ℚ → Option ℚ) (r O C : ℚ)
    (hOr : O ≤ r) (hr : C + 100 < r) :
    hybrid_probability_calculation ex r O C = 0 := by
  cases hx : ex ((r - mid O C) / spread O C) with
  | none =>
      exact hybrid_eq_zero_of_none ex r O C (hybridBody_none_of_ex_none ex r O C hx)
  | some e =>
      have hg : ¬(r < O ∧ O = 0) := fun h => absurd h.1 (not_lt.mpr hOr)
      rw [hybrid_eq_of_some ex r O C e hx hg]
      have hf : finalProb (logisticProb e) r O C (pieceWiseProb r O C) = 0 := by
        unfold finalProb
        rw [if_neg (not_lt.mpr hOr), if_neg (by push_neg; linarith : ¬ r ≤ C), if_pos hr]
      rw [hf, round2_zero]

/-- C4 witness: a concrete zero evaluation far beyond the closing rank. -/
theorem hybrid_zero_beyond_closing_witness :
    hybrid_probability_calculation expOne 201 0 0 = 0 :=
  hybrid_zero_beyond_closing expOne 201 0 0 (by norm_num) (by norm_num)

/-- C4 counterexample: `rank = 500 > closing_rank + 100 = 100`, yet because
`rank < opening_rank = 1000` the result is `79.4`, not `0.0`.  The
exponential argument is exactly `0` here (rank equals the midpoint), so the
model value `1` is the exact value of the real exponential. -/
theorem hybrid_zero_beyond_closing_counterexample :
    (0 : ℚ) + 100 < 500 ∧
      hybrid_probability_calculation expOne 500 1000 0 = 79.4 ∧
      hybrid_probability_calculation expOne 500 1000 0 ≠ 0 := by
  have h1 : hybrid_probability_calculation expOne 500 1000 0 =
      round2 (finalProb (logisticProb 1) 500 1000 0 (pieceWiseProb 500 1000 0)) :=
    hybrid_eq_of_some expOne 500 1000 0 1 rfl (by norm_num)
  have h2 : finalProb (logisticProb 1) 500 1000 0 (pieceWiseProb 500 1000 0) = 79.4 := by
    norm_num [finalProb, logisticProb, pieceWiseProb]
  have h3 : hybrid_probability_calculation expOne 500 1000 0 = 79.4 := by
    rw [h1, h2, round2_eq_of_mul_eq_intCast 7940 _ (by norm_num)]
    norm_num
  refine ⟨by norm_num, h3, ?_⟩
  rw [h3]
  norm_num

/-- C5: at rank equal to the opening rank, with opening rank strictly below
closing rank, the piecewise component is exactly `95.0` and the result is
exactly `round(0.7 * logistic + 0.3 * 95, 2)` where
`logistic = 100 / (1 + e)` and `e` is the exponential value at
`(rank - M) / S`, `M = (opening + closing) / 2`, `S = (closing - opening) / 10`. -/
theorem hybrid_at_opening_rank (ex : ℚ → Option ℚ) (O C e : ℚ) (hOC : O < C)
    (hx : ex ((O - (O + C) / 2) / ((C - O) / 10)) = some e) :
    hybrid_probability_calculation ex O O C =
      round2 (0.7 * (100 / (1 + e)) + 0.3 * 95) := by
  have hs0 : (C - O) / 10 ≠ 0 := by
    intro h
    rcases div_eq_zero_iff.mp h with h1 | h1
    · linarith
    · norm_num at h1
  have hs : spread O C = (C - O) / 10 := by
    unfold spread
    rw [if_neg hs0]
  have hx2 : ex ((O - mid O C) / spread O C) = some e := by
    rw [hs]
    exact hx
  have hg : ¬(O < O ∧ O = 0) := fun h => lt_irrefl O h.1
  rw [hybrid_eq_of_some ex O O C e hx2 hg]
  have hpw : pieceWiseProb O O C = 95 := by
    unfold pieceWiseProb
    rw [if_neg (lt_irrefl O), if_pos rfl]
  have hfp : finalProb (logisticProb e) O O C (pieceWiseProb O O C) =
      logisticProb e * 0.7 + 95 * 0.3 := by
    unfold finalProb
    rw [if_neg (lt_irrefl O), if_pos (le_of_lt hOC), hpw]
  rw [hfp]
  unfold logisticProb
  congr 1
  ring

/-- C5 witness: at opening rank `0`, closing rank `10`, the exponential
argument is `-5` and with model value `1` the stated blend is reached. -/
theorem hybrid_at_opening_rank_witness :
    hybrid_probability_calculation expOne 0 0 10 =
      round2 (0.7 * (100 / (1 + 1)) + 0.3 * 95) :=
  hybrid_at_opening_rank expOne 0 10 1 (by norm_num) rfl

/-- C6: the interpretation thresholds are evaluated high to low with the
first match winning, and the stated boundary evaluations hold. -/
theorem interpretation_thresholds (p : ℚ) :
    (95 ≤ p → get_probability_interpretation p = "Very High Chance") ∧
    (80 ≤ p → p < 95 → get_probability_interpretation p = "High Chance") ∧
    (60 ≤ p → p < 80 → get_probability_interpretation p = "Moderate Chance") ∧
    (40 ≤ p → p < 60 → get_probability_interpretation p = "Low Chance") ∧
    (0 < p → p < 40 → get_probability_interpretation p = "Very Low Chance") ∧
    (p ≤ 0 → get_probability_interpretation p = "No Chance") ∧
    get_probability_interpretation 94.99 = "High Chance" ∧
    get_probability_interpretation 95 = "Very High Chance" ∧
    get_probability_interpretation 0 = "No Chance" ∧
    get_probability_interpretation 0.01 = "Very Low Chance" := by
  unfold get_probability_interpretation
  refine ⟨fun h => ?_, fun h1 h2 => ?_, fun h1 h2 => ?_, fun h1 h2 => ?_,
    fun h1 h2 => ?_, fun h => ?_, ?_, ?_, ?_, ?_⟩ <;>
    split_ifs <;> first | rfl | (exfalso; linarith)

/-- C6 witness: a concrete threshold evaluation via the theorem. -/
theorem interpretation_thresholds_witness :
    get_probability_interpretation 85 = "High Chance" :=
  (interpretation_thresholds 85).2.1 (by norm_num) (by norm_num)

/-- C7: for rank below a nonzero opening rank, the blend uses the strict
test `improvement > 0.5` (returning `max(logistic, 95)`) while the piecewise
stage used the non-strict test `improvement ≥ 0.5`; at improvement exactly
`0.5` the piecewise value is `99.0` but the blend takes the weighted
`0.4 / 0.6` branch. -/
theorem hybrid_better_rank_blend (ex : ℚ → Option ℚ) (r O C e : ℚ)
    (hrO : r < O) (hO : O ≠ 0)
    (hx : ex ((r - mid O C) / spread O C) = some e) :
    (pieceWiseProb r O C =
      if 1/2 ≤ (O - r) / O then 99 else 96 + ((O - r) / O) * 6) ∧
    (hybrid_probability_calculation ex r O C =
      if 1/2 < (O - r) / O then round2 (max (logisticProb e) 95)
      else round2 (0.4 * logisticProb e + 0.6 * pieceWiseProb r O C)) ∧
    ((O - r) / O = 1/2 →
      hybrid_probability_calculation ex r O C =
        round2 (0.4 * logisticProb e + 0.6 * 99)) := by
  have hg : ¬(r < O ∧ O = 0) := fun h => hO h.2
  have hpw : pieceWiseProb r O C =
      if 1/2 ≤ (O - r) / O then 99 else 96 + ((O - r) / O) * 6 := by
    unfold pieceWiseProb
    rw [if_pos hrO]
  have hh := hybrid_eq_of_some ex r O C e hx hg
  refine ⟨hpw, ?_, ?_⟩
  · rw [hh]
    unfold finalProb
    rw [if_pos hrO]
    split_ifs with h
    · rfl
    · congr 1
      ring
  · intro himp
    rw [hh]
    unfold finalProb
    rw [if_pos hrO, if_neg (fun hlt => absurd himp (ne_of_gt hlt)),
      hpw, if_pos (le_of_eq himp.symm)]
    congr 1
    ring

/-- C7 witness: rank `1`, opening `2` gives improvement exactly `0.5`, and
the weighted branch with piecewise value `99` is taken. -/
theorem hybrid_better_rank_blend_witness :
    hybrid_probability_calculation expOne 1 2 10 =
      round2 (0.4 * logisticProb 1 + 0.6 * 99) :=
  (hybrid_better_rank_blend expOne 1 2 10 1 (by norm_num) (by norm_num)
    rfl).2.2 (by norm_num)

/-- C8: scoring a record carrying the missing-data sentinel cutoffs
`9999999 / 9999999` with any candidate rank strictly between `0` and
`4999999` yields at least `95`, interpreted as "Very High Chance": sentinel
records are scored as near-certain admissions, not excluded. -/
theorem hybrid_sentinel_high (ex : ℚ → Option ℚ) (r e : ℚ) (h0 : 0 < r)
    (h1 : r < 4999999)
    (hx : ex ((r - mid 9999999 9999999) / spread 9999999 9999999) = some e)
    (he : 0 ≤ e) :
    95 ≤ hybrid_probability_calculation ex r 9999999 9999999 ∧
      get_probability_interpretation
        (hybrid_probability_calculation ex r 9999999 9999999) =
        "Very High Chance" := by
  have hg : ¬(r < (9999999 : ℚ) ∧ (9999999 : ℚ) = 0) :=
    fun h => absurd h.2 (by norm_num)
  have hh := hybrid_eq_of_some ex r 9999999 9999999 e hx hg
  have hrO : r < (9999999 : ℚ) := by linarith
  have himp : (1 : ℚ)/2 < ((9999999 : ℚ) - r) / 9999999 := by
    rw [lt_div_iff₀ (by norm_num : (0:ℚ) < 9999999)]
    linarith
  have hfp : finalProb (logisticProb e) r 9999999 9999999
      (pieceWiseProb r 9999999 9999999) = max (logisticProb e) 95 := by
    unfold finalProb
    rw [if_pos hrO, if_pos himp]
  have h95 : (95 : ℚ) ≤ hybrid_probability_calculation ex r 9999999 9999999 := by
    rw [hh, hfp]
    have hmax : (95 : ℚ) ≤ max (logisticProb e) 95 := le_max_right _ _
    have := intCast_le_round2 95 _ (by exact_mod_cast hmax)
    exact_mod_cast this
  refine ⟨h95, ?_⟩
  unfold get_probability_interpretation
  rw [if_pos h95]

/-- C8 witness: rank `1` against the sentinel cutoffs. -/
theorem hybrid_sentinel_high_witness :
    95 ≤ hybrid_probability_calculation expOne 1 9999999 9999999 ∧
      get_probability_interpretation
        (hybrid_probability_calculation expOne 1 9999999 9999999) =
        "Very High Chance" :=
  hybrid_sentinel_high expOne 1 1 (by norm_num) (by norm_num) rfl (by norm_num)

/-- C9: with the range invariant `opening_rank ≤ closing_rank`, any rank
strictly beyond the closing rank scores at most `5`: the blend returns
either `0` or `min(logistic, 5)`, and rounding preserves the bound. -/
theorem hybrid_beyond_closing_le_five (ex : ℚ → Option ℚ) (r O C : ℚ)
    (hOC : O ≤ C) (hr : C < r) :
    hybrid_probability_calculation ex r O C ≤ 5 := by
  cases hx : ex ((r - mid O C) / spread O C) with
  | none =>
      rw [hybrid_eq_zero_of_none ex r O C (hybridBody_none_of_ex_none ex r O C hx)]
      norm_num
  | some e =>
      have hrO : ¬ r < O := not_lt.mpr (by linarith)
      have hg : ¬(r < O ∧ O = 0) := fun h => hrO h.1
      rw [hybrid_eq_of_some ex r O C e hx hg]
      have hf : finalProb (logisticProb e) r O C (pieceWiseProb r O C) ≤ 5 := by
        unfold finalProb
        rw [if_neg hrO, if_neg (not_le.mpr hr)]
        split_ifs
        · norm_num
        · exact min_le_right _ _
      have := round2_le_intCast 5 _ (by exact_mod_cast hf)
      exact_mod_cast this

/-- C9 witness: rank `1` beyond the degenerate range `[0, 0]`. -/
theorem hybrid_beyond_closing_le_five_witness :
    hybrid_probability_calculation expOne 1 0 0 ≤ 5 :=
  hybrid_beyond_closing_le_five expOne 1 0 0 le_rfl (by norm_num)

/-- A cutoff record as produced by `load_data` preprocessing (utils.py lines
27-41): the string columns of the CSV plus the two numeric rank columns. -/
structure CutoffRecord where
  institute : String
  collegeType : String
  location : String
  branch : String
  category : String
  openingRank : ℚ
  closingRank : ℚ
  roundNo : String
deriving DecidableEq

/-- A raw CSV row before preprocessing: the rank columns hold `some q` when
the cell parses as a number and `none` when it is missing or unparseable
(`pd.to_numeric(..., errors="coerce")` turns both into NaN). -/
structure RawCutoffRow where
  institute : String
  collegeType : String
  location : String
  branch : String
  category : String
  openingRank : Option ℚ
  closingRank : Option ℚ
  roundNo : String

/-- Preprocessing of one row by `load_data` (utils.py lines 39-41): a rank
column that is missing or unparseable is replaced by the sentinel
`9999999`; parsed values and the string columns pass through. -/
def preprocessRow (row : RawCutoffRow) : CutoffRecord :=
  { institute := row.institute
    collegeType := row.collegeType
    location := row.location
    branch := row.branch
    category := row.category
    openingRank := row.openingRank.getD 9999999
    closingRank := row.closingRank.getD 9999999
    roundNo := row.roundNo }

/-- The data-frame preprocessing stage of `load_data` (utils.py lines
39-41), applied row by row; fetching and column validation are external. -/
def load_data (rows : List RawCutoffRow) : List CutoffRecord :=
  rows.map preprocessRow

/-- A scored record: a cutoff record with its admission probability,
interpretation label and 1-based preference order. -/
structure ScoredRecord where
  record : CutoffRecord
  admissionProbability : ℚ
  admissionChances : String
  preference : ℕ
deriving DecidableEq

/-- Result of the shortlist builder: either the distinct no-matches signal
or a ranked list of scored records with a histogram summary. -/
inductive ShortlistResult where
  | noMatches : ShortlistResult
  | results : List ScoredRecord → List (ℚ × ℕ) → ShortlistResult
deriving DecidableEq

/-- Modelled from the spec: the filter step of `build_shortlist`
(`predict_preferences` in app/main.py is referenced at line 202 but its body
is not part of the sources), spec section 4.2 step 1-2: category, college
type and branch are compared case-normalized with an "all" wildcard, the
round is always compared exactly. -/
def matchesFilters (rec : CutoffRecord)
    (category collegeType branch roundNo : String) : Bool :=
  (category.toLower == "all" || rec.category.toLower == category.toLower) &&
  (collegeType.toUpper == "ALL" || rec.collegeType.toUpper == collegeType.toUpper) &&
  (branch.toLower == "all" || rec.branch.toLower == branch.toLower) &&
  (rec.roundNo == roundNo)

/-- Stable insertion into a list sorted by descending probability: the new
record goes before the first strictly smaller probability, so ties keep
their prior relative order. -/
def insertDesc (x : ScoredRecord) : List ScoredRecord → List ScoredRecord
  | [] => [x]
  | y :: ys =>
    if y.admissionProbability < x.admissionProbability then x :: y :: ys
    else y :: insertDesc x ys

/-- Modelled from the spec: stable sort by descending admission probability
(spec section 4.2 step 7). -/
def sortDesc : List ScoredRecord → List ScoredRecord
  | [] => []
  | x :: xs => insertDesc x (sortDesc xs)

/-- Modelled from the spec: preference numbers `1..N` assigned in sorted
order (spec section 4.2 step 8). -/
def assignPreference (l : List ScoredRecord) : List ScoredRecord :=
  l.enum.map fun p => { p.2 with preference := p.1 + 1 }

/-- Modelled from the spec: a fixed 20-bin histogram over `[0, 100]` of the
admission probabilities, bucket lower bound paired with its count (spec
section 4.2 step 9); the last bucket includes `100`. -/
def probHistogram (probs : List ℚ) : List (ℚ × ℕ) :=
  (List.range 20).map fun i =>
    ((5 * (i : ℚ), (probs.filter fun p =>
      decide (5 * (i : ℚ) ≤ p) &&
        (decide (p < 5 * ((i : ℚ) + 1)) || (i == 19 && decide (p ≤ 100)))).length))

/-- Modelled from the spec: the non-empty path of `build_shortlist` (spec
section 4.2 steps 4-9): three bounded candidate windows around the rank,
union with duplicates removed, scoring via the Scorer, threshold filter,
stable descending sort, preference assignment and histogram summary. -/
def scoreAndRank (ex : ℚ → Option ℚ) (filtered : List CutoffRecord)
    (rank minProb : ℚ) : ShortlistResult :=
  let nearTop := (filtered.filter fun rec =>
    decide (rank - 200 ≤ rec.openingRank) && decide (rec.openingRank ≤ rank)).take 10
  let midWindow := (filtered.filter fun rec =>
    decide (rec.openingRank ≤ rank) && decide (rank ≤ rec.closingRank)).take 20
  let nearBottom := (filtered.filter fun rec =>
    decide (rank ≤ rec.closingRank) && decide (rec.closingRank ≤ rank + 200)).take 20
  let candidates := (nearTop ++ midWindow ++ nearBottom).dedup
  let scored := candidates.map fun rec =>
    let p := hybrid_probability_calculation ex rank rec.openingRank rec.closingRank
    ScoredRecord.mk rec p (get_probability_interpretation p) 0
  let kept := scored.filter fun s => decide (minProb ≤ s.admissionProbability)
  ShortlistResult.results (assignPreference (sortDesc kept))
    (probHistogram (kept.map fun s => s.admissionProbability))

/-- Modelled from the spec: `build_shortlist` (spec section 4.2; the
implementing `predict_preferences` body is missing from the sources): filter
the records, return the distinct no-matches signal when the filtered set is
empty, otherwise window, score, threshold, sort and rank. -/
def build_shortlist (ex : ℚ → Option ℚ) (records : List CutoffRecord)
    (rank : ℚ) (category collegeType branch roundNo : String)
    (minProb : ℚ) : ShortlistResult :=
  if (records.filter fun rec =>
      matchesFilters rec category collegeType branch roundNo).isEmpty then
    ShortlistResult.noMatches
  else
    scoreAndRank ex
      (records.filter fun rec => matchesFilters rec category collegeType branch roundNo)
      rank minProb

/-- C3: whenever the filtered record set is empty, and in particular for an
empty input record set, `build_shortlist` returns the typed no-matches
signal, which is distinct from every ordinary numeric result. -/
theorem build_shortlist_noMatches (ex : ℚ → Option ℚ)
    (records : List CutoffRecord) (rank : ℚ)
    (category collegeType branch roundNo : String) (minProb : ℚ) :
    ((records.filter fun rec =>
        matchesFilters rec category collegeType branch roundNo) = [] →
      build_shortlist ex records rank category collegeType branch roundNo minProb =
        ShortlistResult.noMatches) ∧
    (records = [] →
      build_shortlist ex records rank category collegeType branch roundNo minProb =
        ShortlistResult.noMatches) ∧
    (∀ l h, ShortlistResult.noMatches ≠ ShortlistResult.results l h) := by
  refine ⟨fun hf => ?_, fun hr => ?_, fun l h hcon => ?_⟩
  · unfold build_shortlist
    rw [hf]
    rfl
  · subst hr
    rfl
  · cases hcon

/-- C3 witness: the empty record set yields the no-matches signal. -/
theorem build_shortlist_noMatches_witness :
    build_shortlist expOne [] 5000 "All" "ALL" "All" "1" 30 =
      ShortlistResult.noMatches :=
  (build_shortlist_noMatches expOne [] 5000 "All" "ALL" "All" "1" 30).2.1 rfl

/-- C10: a row whose opening or closing rank cell is missing or unparseable
(modelled as `none`) is loaded with that field replaced by the sentinel
`9999999`; the preprocessed row is what `load_data` returns to callers. -/
theorem load_data_sentinel (rows : List RawCutoffRow) (row : RawCutoffRow)
    (hmem : row ∈ rows) :
    preprocessRow row ∈ load_data rows ∧
    (row.openingRank = none → (preprocessRow row).openingRank = 9999999) ∧
    (row.closingRank = none → (preprocessRow row).closingRank = 9999999) ∧
    (∀ q : ℚ, row.openingRank = some q → (preprocessRow row).openingRank = q) ∧
    (∀ q : ℚ, row.closingRank = some q → (preprocessRow row).closingRank = q) := by
  refine ⟨List.mem_map_of_mem preprocessRow hmem, fun h => ?_, fun h => ?_,
    fun q h => ?_, fun q h => ?_⟩ <;>
    simp [preprocessRow, h]

/-- C10 witness: a concrete row with an unparseable opening rank and a
parsed closing rank. -/
theorem load_data_sentinel_witness :
    (preprocessRow (RawCutoffRow.mk "IIT Bombay" "IIT" "Mumbai"
        "computer science" "open" none (some 120) "1")).openingRank = 9999999 ∧
    (preprocessRow (RawCutoffRow.mk "IIT Bombay" "IIT" "Mumbai"
        "computer science" "open" none (some 120) "1")).closingRank = 120 := by
  have h := load_data_sentinel
    [RawCutoffRow.mk "IIT Bombay" "IIT" "Mumbai" "computer science" "open"
      none (some 120) "1"]
    (RawCutoffRow.mk "IIT Bombay" "IIT" "Mumbai" "computer science" "open"
      none (some 120) "1") (List.mem_singleton.mpr rfl)
  exact ⟨h.2.1 rfl, h.2.2.2.2 120 rfl⟩

end JOSAA
